import Mathlib

/-!
Shallow embedding of the Colorcore client (OpenAssets/colorcore) used to check
the natural-language specification against the code.

Conventions:
- Python byte strings are modelled as `List ℕ` with every element `< 256`.
- Python `int` is modelled as `ℤ` (or `ℕ` where the value is a count/index).
- Python `decimal.Decimal` arithmetic is modelled as exact rational
  arithmetic over `ℚ`; `int(q)` truncates toward zero, `math.ceil` is `⌈·⌉`.
- Coroutines are modelled as explicit sequential state passing; calls into
  the blockchain provider and the cache are recorded in an event trace.
- Fallible code returns `Option` or `Except`.

The file is organized as definitions first, then the theorems about them.
-/

namespace Colorcore

/-! # Definitions -/

/-! ## Rational helpers

`floorQ`/`ceilQ`/`pyInt` are executable counterparts of `⌊·⌋`, `⌈·⌉` and
Python's `int()` conversion (truncation toward zero) on exact rationals. -/

/-- Executable floor of a rational (the `Int` division rounds toward minus
infinity and the denominator is positive). -/
def floorQ (q : ℚ) : ℤ := q.num / q.den

/-- Executable ceiling of a rational. -/
def ceilQ (q : ℚ) : ℤ := -floorQ (-q)

/-- Python `int()` applied to an exact rational: truncation toward zero. -/
def pyInt (q : ℚ) : ℤ := if 0 ≤ q then floorQ q else ceilQ q

/-! ## `Controller._calculate_distribution` (src/colorcore/operations.py)

```python
@staticmethod
def _calculate_distribution(output_value, price, fees, dust_limit):
    effective_amount = output_value - fees - dust_limit
    units_issued = int(effective_amount / price)

    collected = int(math.ceil(units_issued * price))
    change = effective_amount - collected
    if change < dust_limit:
        collected += change

    return collected, units_issued, effective_amount - collected
```
`price` is a `decimal.Decimal`, modelled as `ℚ`. -/

/-- Shallow embedding of `Controller._calculate_distribution`.
Returns `(collected, units_issued, change)`. -/
def calculate_distribution (output_value : ℤ) (price : ℚ) (fees dust_limit : ℤ) :
    ℤ × ℤ × ℤ :=
  let effective_amount := output_value - fees - dust_limit
  let units_issued := pyInt ((effective_amount : ℚ) / price)
  let collected := ceilQ ((units_issued : ℚ) * price)
  let change := effective_amount - collected
  let collected2 := if change < dust_limit then collected + change else collected
  (collected2, units_issued, effective_amount - collected2)

/-! ## Output descriptors

Modelled from the spec: the output-descriptor data model of §3 (the concrete
class `openassets.protocol.TransactionOutput` and the `OutputType` enumeration
live in the external `openassets` package, which is not part of this
repository). -/

/-- Modelled from the spec: the `output_type` enumeration of §3,
`{uncolored, transfer, issuance, marker_output, marker_invalid}` (the concrete
enum lives in the external `openassets` package). The numeric `value` used by
the SQLite cache column `OutputType` is given by `OutputType.toNat`. -/
inductive OutputType where
  | uncolored
  | transfer
  | issuance
  | markerOut
  | markerInvalid
deriving DecidableEq, Repr

/-- Numeric value of an output type (the `output_type.value` stored in the
`OutputType` column of the cache). -/
def OutputType.toNat : OutputType → ℕ
  | .uncolored => 0
  | .transfer => 1
  | .issuance => 2
  | .markerOut => 3
  | .markerInvalid => 4

/-- Reconstruction of an output type from its stored numeric value
(`OutputType(result[4])` in `SqliteCache.get`). -/
def OutputType.ofValue : ℕ → OutputType
  | 0 => .uncolored
  | 1 => .transfer
  | 2 => .issuance
  | 3 => .markerOut
  | _ => .markerInvalid

/-- Modelled from the spec: the output descriptor of §3 (the external
`openassets.protocol.TransactionOutput`): satoshi value, raw output script
bytes, optional 20-byte asset id, asset quantity and output type. -/
structure TransactionOutput where
  value : ℤ
  script : List ℕ
  assetId : Option (List ℕ)
  assetQuantity : ℕ
  outputType : OutputType
deriving DecidableEq, Repr

/-! ## `SqliteCache` (src/colorcore/caching.py)

The `Outputs` table has primary key `(TransactionHash, OutputIndex)` and the
data columns `Value, Script, AssetID, AssetQuantity, OutputType`. The table is
modelled as an association list from key to stored row; `INSERT OR IGNORE`
leaves the table unchanged when the key is already present. -/

/-- A stored row of the `Outputs` table (data columns only). -/
structure CacheRow where
  value : ℤ
  script : List ℕ
  assetId : Option (List ℕ)
  assetQuantity : ℕ
  outputType : ℕ
deriving DecidableEq, Repr

/-- Cache key: `(TransactionHash, OutputIndex)`. -/
abbrev CacheKey := List ℕ × ℕ

/-- The state of the SQLite `Outputs` table. -/
abbrev SqliteCache := List (CacheKey × CacheRow)

/-- The row written by `SqliteCache.put` for a descriptor. -/
def toCacheRow (output : TransactionOutput) : CacheRow :=
  ⟨output.value, output.script, output.assetId, output.assetQuantity,
   output.outputType.toNat⟩

/-- Shallow embedding of `SqliteCache.get`: `SELECT ... WHERE TransactionHash
= ? AND OutputIndex = ?`, reconstructing a `TransactionOutput` from the row,
or `none` when no row matches. -/
def SqliteCache.get (cache : SqliteCache) (transaction_hash : List ℕ)
    (output_index : ℕ) : Option TransactionOutput :=
  match List.lookup (transaction_hash, output_index) cache with
  | none => none
  | some r => some ⟨r.value, r.script, r.assetId, r.assetQuantity,
      OutputType.ofValue r.outputType⟩

/-- Shallow embedding of `SqliteCache.put`: `INSERT OR IGNORE` on the primary
key `(TransactionHash, OutputIndex)`. -/
def SqliteCache.put (cache : SqliteCache) (transaction_hash : List ℕ)
    (output_index : ℕ) (output : TransactionOutput) : SqliteCache :=
  if (List.lookup (transaction_hash, output_index) cache).isSome then cache
  else cache ++ [((transaction_hash, output_index), toCacheRow output)]

/-! ## Error taxonomy (spec §7) -/

/-- Errors surfaced by the blockchain provider. `notSupported` models the
`NotImplementedError` raised by a read-only provider, which the spec names
`NotSupportedError`. -/
inductive ProviderError where
  | transactionNotFound
  | notSupported
  | failure
deriving DecidableEq, Repr

/-- Modelled from the spec: builder errors of §7 (the concrete exceptions
live in the external `openassets.transactions` package). -/
inductive BuilderError where
  | insufficientFunds
  | insufficientAssetQuantity
  | dustOutput
deriving DecidableEq, Repr

/-- User-facing validation errors (`colorcore.routing.ControllerError`),
tagged by which validation failed. -/
inductive ControllerError where
  | invalidAddress
  | invalidInteger
  | invalidDecimal
deriving DecidableEq, Repr

/-- Any error surfaced by a controller operation. -/
inductive OperationError where
  | controller (e : ControllerError)
  | provider (e : ProviderError)
  | builder (e : BuilderError)
deriving DecidableEq, Repr

/-! ## Event traces

Suspension points of a high-level operation (spec §5): provider calls and
the cache commit. Each run of an operation is modelled as a pure function
that also returns the ordered list of such events. -/

/-- Observable calls made by a controller operation, in order. -/
inductive TraceEvent where
  | listUnspent
  | getTransaction
  | cacheCommit
  | signTransaction
  | sendTransaction
deriving DecidableEq, Repr

/-! ## Transactions (bitcoin.core data used by the controller) -/

/-- A transaction input: the spent outpoint plus its script
(`bitcoin.core.CTxIn(out_point, script)`). -/
structure TxIn where
  prevout : CacheKey
  scriptSig : List ℕ
deriving DecidableEq, Repr

/-- A transaction output (`bitcoin.core.CTxOut`). -/
structure TxOut where
  value : ℤ
  scriptPubKey : List ℕ
deriving DecidableEq, Repr

/-- A transaction (`bitcoin.core.CTransaction`). -/
structure Transaction where
  vin : List TxIn
  vout : List TxOut
deriving DecidableEq, Repr

/-! ## `Controller._get_unspent_outputs` (src/colorcore/operations.py)

The coroutine lists unspent outputs through the provider, resolves each one
through the coloring engine (which may call `provider.get_transaction` any
number of times), and commits the cache once at the end, only after every
output has been resolved. The engine (external `openassets` package) is
modelled as an oracle giving, per outpoint, the number of
`get_transaction` calls it makes and its result. -/

/-- An entry returned by `provider.list_unspent`. -/
structure UnspentItem where
  outPoint : CacheKey
  confirmations : ℕ
deriving DecidableEq, Repr

/-- An unspent output paired with its resolved descriptor
(`openassets.transactions.SpendableOutput` plus the `confirmations`
attribute set by `_get_unspent_outputs`). -/
structure SpendableOutput where
  outPoint : CacheKey
  output : TransactionOutput
  confirmations : ℕ
deriving DecidableEq, Repr

/-- The resolution loop of `_get_unspent_outputs`: resolve each unspent item
in order through the engine oracle, stopping at the first failure. -/
def resolveLoop
    (resolve : CacheKey → ℕ × Except ProviderError TransactionOutput) :
    List UnspentItem →
      List TraceEvent × Except ProviderError (List SpendableOutput)
  | [] => ([], .ok [])
  | it :: rest =>
    match resolve it.outPoint with
    | (n, .error e) => (List.replicate n .getTransaction, .error e)
    | (n, .ok out) =>
      match resolveLoop resolve rest with
      | (evs, .error e) => (List.replicate n .getTransaction ++ evs, .error e)
      | (evs, .ok outs) =>
        (List.replicate n .getTransaction ++ evs,
         .ok (⟨it.outPoint, out, it.confirmations⟩ :: outs))

/-- Shallow embedding of `Controller._get_unspent_outputs`: the
`list_unspent` call, the resolution loop, and the final `cache.commit()`
(reached only when every output resolved successfully). -/
def getUnspentOutputsRun
    (listUnspentResult : Except ProviderError (List UnspentItem))
    (resolve : CacheKey → ℕ × Except ProviderError TransactionOutput) :
    List TraceEvent × Except ProviderError (List SpendableOutput) :=
  match listUnspentResult with
  | .error e => ([.listUnspent], .error e)
  | .ok items =>
    match resolveLoop resolve items with
    | (evs, .error e) => (.listUnspent :: evs, .error e)
    | (evs, .ok outs) => (.listUnspent :: (evs ++ [.cacheCommit]), .ok outs)

/-! ## `Controller.sendbitcoin` (src/colorcore/operations.py)

Control-flow model. External collaborators (address parsing from
`bitcoin.wallet`, the `openassets` transaction builder, signing and
broadcast) are supplied as an environment of oracles; the embedding keeps
the exact sequencing of the source. -/

/-- A parsed bitcoin address, reduced to the script it pays to. -/
structure Address where
  scriptPubKey : List ℕ
deriving DecidableEq, Repr

/-- Python `int(string)`: optional surrounding spaces, optional sign, at
least one decimal digit; anything else raises `ValueError`. -/
def pyParseInt (s : String) : Option ℤ :=
  let cs := ((s.toList.dropWhile (fun c => c = ' ')).reverse.dropWhile
      (fun c => c = ' ')).reverse
  let core : List Char → Option ℕ := fun ds =>
    if ds ≠ [] ∧ ds.all Char.isDigit then
      some (ds.foldl (fun n c => n * 10 + (c.toNat - 48)) 0)
    else none
  match cs with
  | '-' :: ds => (core ds).map (fun n => -(n : ℤ))
  | '+' :: ds => (core ds).map (fun n => (n : ℤ))
  | ds => (core ds).map (fun n => (n : ℤ))

/-- The configuration values the controller reads. -/
structure Configuration where
  dustLimit : ℤ
  defaultFees : ℤ
deriving DecidableEq, Repr

/-- Embedding of `Controller._get_fees`: the default fee when unspecified, otherwise
`_as_int` of the argument. -/
def getFees (cfg : Configuration) (value : Option String) : Option ℤ :=
  match value with
  | none => some cfg.defaultFees
  | some s => pyParseInt s

/-- External collaborators of `sendbitcoin`, as oracles. -/
structure ControllerEnv where
  parseP2PKHAddress : String → Option Address
  parseAddress : String → Option Address
  listUnspentResult : Except ProviderError (List UnspentItem)
  resolveOutput : CacheKey → ℕ × Except ProviderError TransactionOutput
  transferBitcoin : List SpendableOutput → List ℕ → List ℕ → ℤ → ℤ →
      Except BuilderError Transaction
  signTransactionResult : Transaction → Except ProviderError Transaction
  sendTransactionResult : Transaction → Except ProviderError (List ℕ)

/-- Result of `_process_transaction`, by mode. -/
inductive ProcessedTransaction where
  | broadcasted (txid : List ℕ)
  | signed (tx : Transaction)
  | unsigned (tx : Transaction)
deriving DecidableEq, Repr

/-- Shallow embedding of `Controller._process_transaction`: sign for modes
`broadcast` and `signed`, additionally broadcast for mode `broadcast`,
otherwise return the raw transaction. -/
def processTransaction (env : ControllerEnv) (evs : List TraceEvent)
    (tx : Transaction) (mode : String) :
    List TraceEvent × Except OperationError ProcessedTransaction :=
  if mode = "broadcast" ∨ mode = "signed" then
    match env.signTransactionResult tx with
    | .error e => (evs ++ [.signTransaction], .error (.provider e))
    | .ok stx =>
      if mode = "broadcast" then
        match env.sendTransactionResult stx with
        | .error e =>
          (evs ++ [.signTransaction, .sendTransaction], .error (.provider e))
        | .ok txid =>
          (evs ++ [.signTransaction, .sendTransaction], .ok (.broadcasted txid))
      else (evs ++ [.signTransaction], .ok (.signed stx))
  else (evs, .ok (.unsigned tx))

/-- Shallow embedding of `Controller.sendbitcoin`, keeping the source's
sequencing: parse the from-address, parse the to-address, fetch and resolve
the unspent outputs (`_get_unspent_outputs`), only then convert `amount`
with `_as_int` and the fees with `_get_fees`, build the transfer, and
process it according to `mode`. -/
def sendbitcoin (cfg : Configuration) (env : ControllerEnv)
    (address amount toAddr : String) (fees : Option String) (mode : String) :
    List TraceEvent × Except OperationError ProcessedTransaction :=
  match env.parseP2PKHAddress address with
  | none => ([], .error (.controller .invalidAddress))
  | some fromAddress =>
    match env.parseAddress toAddr with
    | none => ([], .error (.controller .invalidAddress))
    | some toAddress =>
      match getUnspentOutputsRun env.listUnspentResult env.resolveOutput with
      | (evs, .error e) => (evs, .error (.provider e))
      | (evs, .ok coloredOutputs) =>
        match pyParseInt amount with
        | none => (evs, .error (.controller .invalidInteger))
        | some amt =>
          match getFees cfg fees with
          | none => (evs, .error (.controller .invalidInteger))
          | some f =>
            match env.transferBitcoin coloredOutputs toAddress.scriptPubKey
                fromAddress.scriptPubKey amt f with
            | .error e => (evs, .error (.builder e))
            | .ok tx => processTransaction env evs tx mode

/-! ## Marker output construction and the `distribute` operation

The output-building helpers `_get_colored_output`, `_get_marker_output` and
`_get_uncolored_output` live in the external `openassets.transactions`
package; they are modelled from the spec (§4.2 dust-limit enforcement and
§6 marker output wire format). -/

/-- Little-endian fixed-width byte encoding. -/
def toLEBytes : ℕ → ℕ → List ℕ
  | 0, _ => []
  | k + 1, n => n % 256 :: toLEBytes k (n / 256)

/-- Modelled from the spec: bitcoin-style variable-length integer used for
the counts in the marker payload (§6). -/
def varLengthInt (n : ℕ) : List ℕ :=
  if n < 0xfd then [n]
  else if n ≤ 0xffff then 0xfd :: toLEBytes 2 n
  else if n ≤ 0xffffffff then 0xfe :: toLEBytes 4 n
  else 0xff :: toLEBytes 8 n

/-- Modelled from the spec: variable-length unsigned integer encoding of one
asset quantity (§4.2, base-128 groups, low group first). -/
def leb128 (n : ℕ) : List ℕ :=
  if n < 128 then [n] else (n % 128 + 128) :: leb128 (n / 128)
termination_by n
decreasing_by exact Nat.div_lt_self (by omega) (by omega)

/-- Modelled from the spec: the marker payload of §6,
`varint-count ‖ concat(varint(quantity_i)) ‖ varint-metadata-length ‖
metadata`. -/
def serializePayload (quantities : List ℕ) (metadata : List ℕ) : List ℕ :=
  varLengthInt quantities.length ++ (quantities.map leb128).flatten ++
    varLengthInt metadata.length ++ metadata

/-- A minimal script push of a byte string. -/
def pushData (bs : List ℕ) : List ℕ :=
  if bs.length < 76 then bs.length :: bs
  else if bs.length < 256 then 76 :: bs.length :: bs
  else 77 :: bs.length % 256 :: bs.length / 256 :: bs

/-- Modelled from the spec: the marker script template of §6 — the null-data
opcode (`OP_RETURN`, `0x6a`) followed by a single push of the payload. -/
def markerScriptBytes (payload : List ℕ) : List ℕ :=
  0x6a :: pushData payload

/-- Modelled from the spec: `_get_marker_output` — a zero-valued output
whose script wraps the serialized payload (quantities are nonnegative; the
source passes Python ints). -/
def getMarkerOutput (quantities : List ℤ) (metadata : List ℕ) : TxOut :=
  ⟨0, markerScriptBytes (serializePayload (quantities.map Int.toNat) metadata)⟩

/-- Modelled from the spec: `_get_colored_output` — an asset-bearing output
carries exactly the dust-limit value (§4.2: asset-bearing outputs are exempt
from the dust-drop rule and are created at the minimum allowed value). -/
def getColoredOutput (dust_limit : ℤ) (script : List ℕ) : TxOut :=
  ⟨dust_limit, script⟩

/-- Modelled from the spec: `_get_uncolored_output` — a pure-value output;
the operation fails when its value would fall below the dust limit (§4.2:
dust-limit enforcement with no merge target). -/
def getUncoloredOutput (dust_limit : ℤ) (script : List ℕ) (value : ℤ) :
    Except BuilderError TxOut :=
  if value < dust_limit then .error .dustOutput else .ok ⟨value, script⟩

/-- The sender script used by `distribute` for an inbound output:
`bytes(incoming_transaction.vout[0].scriptPubKey)` where the incoming
transaction is fetched from the provider by the hash of the outpoint. -/
def senderScript (getTx : List ℕ → Transaction) (o : SpendableOutput) :
    List ℕ :=
  ((getTx o.outPoint.1).vout.headD ⟨0, []⟩).scriptPubKey

/-- The single transaction `distribute` builds for one qualifying inbound
output: one input (the inbound outpoint), then the colored issuance output,
the marker output with the single issued quantity, the collected-funds
output to the forward address, and a change output when the change is
positive. -/
def distributeTx (cfg : Configuration) (getTx : List ℕ → Transaction)
    (deriveScript : List ℕ → Option (List ℕ)) (price : ℚ) (fees : ℤ)
    (metadata : List ℕ) (toScript : List ℕ) (o : SpendableOutput) :
    Except BuilderError Transaction :=
  let script := senderScript getTx o
  let r := calculate_distribution o.output.value price fees cfg.dustLimit
  let derivedScript := (deriveScript script).getD script
  match getUncoloredOutput cfg.dustLimit toScript r.1 with
  | .error e => .error e
  | .ok collectedOutput =>
    match (if 0 < r.2.2 then
        match getUncoloredOutput cfg.dustLimit script r.2.2 with
        | .error e => .error e
        | .ok t => .ok [t]
      else .ok [] : Except BuilderError (List TxOut)) with
    | .error e => .error e
    | .ok changeOutputs =>
      .ok ⟨[⟨o.outPoint, o.output.script⟩],
           [getColoredOutput cfg.dustLimit derivedScript,
            getMarkerOutput [r.2.1] metadata,
            collectedOutput] ++ changeOutputs⟩

/-- Shallow embedding of the transaction-building loop of
`Controller.distribute`: for every inbound unspent output, compute the
distribution; when the issued amount is positive, build one standalone
transaction for that output; otherwise build nothing. -/
def distribute (cfg : Configuration) (getTx : List ℕ → Transaction)
    (deriveScript : List ℕ → Option (List ℕ)) (price : ℚ) (fees : ℤ)
    (metadata : List ℕ) (toScript : List ℕ) :
    List SpendableOutput → Except BuilderError (List Transaction)
  | [] => .ok []
  | o :: rest =>
    let r := calculate_distribution o.output.value price fees cfg.dustLimit
    if 0 < r.2.1 then
      match distributeTx cfg getTx deriveScript price fees metadata toScript
          o with
      | .error e => .error e
      | .ok tx =>
        match distribute cfg getTx deriveScript price fees metadata toScript
            rest with
        | .error e => .error e
        | .ok txs => .ok (tx :: txs)
    else distribute cfg getTx deriveScript price fees metadata toScript rest

/-! ## `ChainApiProvider` (src/colorcore/providers.py)

`sign_transaction` and `send_transaction` delegate to the fallback provider
when one is configured, and otherwise raise the not-supported error. -/

/-- The reply of a provider's `signrawtransaction`. -/
structure SignTransactionResult where
  complete : Bool
  transaction : Transaction
deriving DecidableEq, Repr

/-- A configured fallback provider, reduced to the two delegated calls. -/
structure FallbackProvider where
  signTransaction : Transaction → Except ProviderError SignTransactionResult
  sendTransaction : Transaction → Except ProviderError (List ℕ)

/-- Shallow embedding of `ChainApiProvider.sign_transaction`. -/
def ChainApiProvider.sign_transaction (fallback : Option FallbackProvider)
    (tx : Transaction) : Except ProviderError SignTransactionResult :=
  match fallback with
  | some p => p.signTransaction tx
  | none => .error .notSupported

/-- Shallow embedding of `ChainApiProvider.send_transaction`. -/
def ChainApiProvider.send_transaction (fallback : Option FallbackProvider)
    (tx : Transaction) : Except ProviderError (List ℕ) :=
  match fallback with
  | some p => p.sendTransaction tx
  | none => .error .notSupported

/-! ## Sample data used to exercise the models on concrete inputs -/

/-- A sample resolved output descriptor. -/
def sampleOutput : TransactionOutput := ⟨5, [2], none, 0, .uncolored⟩

/-- A sample environment: both addresses parse, the wallet has no unspent
outputs. -/
def sampleEnv : ControllerEnv :=
  ⟨fun _ => some ⟨[1]⟩, fun _ => some ⟨[2]⟩, .ok [],
   fun _ => (0, .error .failure), fun _ _ _ _ _ => .error .insufficientFunds,
   fun t => .ok t, fun _ => .ok [0]⟩

/-- A sample environment whose P2PKH address parsing fails. -/
def sampleEnvBadAddress : ControllerEnv :=
  ⟨fun _ => none, fun _ => some ⟨[2]⟩, .ok [],
   fun _ => (0, .error .failure), fun _ _ _ _ _ => .error .insufficientFunds,
   fun t => .ok t, fun _ => .ok [0]⟩

/-- Sample provider: every incoming transaction has one output paying
script `[9]`. -/
def sampleGetTx : List ℕ → Transaction := fun _ => ⟨[], [⟨0, [9]⟩]⟩

/-- A sample inbound unspent output of value 61. -/
def sampleOutput61 : SpendableOutput := ⟨([1], 0), ⟨61, [5], none, 0, .uncolored⟩, 0⟩

/-- A sample inbound unspent output of value 25 (too small to issue units at
price 20 with fees 15 and dust 10). -/
def sampleOutput25 : SpendableOutput := ⟨([2], 0), ⟨25, [5], none, 0, .uncolored⟩, 0⟩

/-- The transaction `distribute` builds for `sampleOutput61` at price 20,
fees 15, dust limit 10. -/
def sampleDistributeTransaction : Transaction :=
  ⟨[⟨([1], 0), [5]⟩],
   [⟨10, [9]⟩, getMarkerOutput [1] [], ⟨20, [7]⟩, ⟨16, [9]⟩]⟩

/-! ## Base58 addresses (src/colorcore/addresses.py)

`Base58Address.__str__` and `Base58Address.from_string` call the external
`bitcoin.base58.encode`/`decode` (big-endian base-58 with leading zero bytes
written as leading `'1'` characters) and the external double-SHA256
`bitcoin.core.Hash` for the 4-byte checksum. The base-58 codec is embedded
below following the standard algorithm those functions implement; the hash
is passed in as an explicit function `H` (the round trip does not depend on
its definition, only on it producing bytes). -/

/-- The base-58 alphabet (`b58_digits` of python-bitcoinlib). -/
def b58Chars : List Char :=
  "123456789ABCDEFGHJKLMNPQRSTUVWXYZabcdefghijkmnopqrstuvwxyz".toList

/-- Character of a base-58 digit. -/
def b58CharOf (d : ℕ) : Char := b58Chars.getD d '1'

/-- Digit of a base-58 character (`b58_digits.index(c)`). -/
def b58Index (c : Char) : ℕ := b58Chars.indexOf c

/-- Whether a character belongs to the base-58 alphabet. -/
def b58Valid (c : Char) : Bool := b58Chars.contains c

/-- Big-endian byte-string value (`int from the hexlified bytes`). -/
def bytesToNat (bs : List ℕ) : ℕ := bs.foldl (fun n b => n * 256 + b) 0

/-- Number of leading zero bytes. -/
def countLeadingZeroBytes (bs : List ℕ) : ℕ :=
  (bs.takeWhile (fun b => b == 0)).length

/-- Embedding of `bitcoin.base58.encode`: one `'1'` per leading zero byte, then the
base-58 digits of the value, most significant first. -/
def base58Encode (bs : List ℕ) : List Char :=
  List.replicate (countLeadingZeroBytes bs) '1' ++
    ((Nat.digits 58 (bytesToNat bs)).reverse.map b58CharOf)

/-- Embedding of `bitcoin.base58.decode`: empty for empty, otherwise every character
must be a base-58 digit; the accumulated value is written back as
big-endian bytes (a single zero byte when the value is zero) and one zero
byte is prepended per leading `'1'` among all but the last character. -/
def base58Decode (s : List Char) : Option (List ℕ) :=
  if s = [] then some []
  else if s.all b58Valid then
    let n := s.foldl (fun n c => n * 58 + b58Index c) 0
    let res := if n = 0 then [0] else (Nat.digits 256 n).reverse
    let pad := (s.dropLast.takeWhile (fun c => c == '1')).length
    some (List.replicate pad 0 ++ res)
  else none

/-- The `Base58Address` value: 20-byte payload, version byte, optional
namespace byte. -/
structure Base58Address where
  data : List ℕ
  version : ℕ
  namespaceByte : Option ℕ
deriving DecidableEq, Repr

/-- The constructor checks of `Base58Address.__init__`: version in 0..255,
namespace absent or in 0..255, payload exactly 20 bytes. -/
def mkBase58Address (data : List ℕ) (version : ℕ) (namespaceByte : Option ℕ) :
    Option Base58Address :=
  if version < 256 && namespaceByte.all (fun n => decide (n < 256)) &&
      data.length == 20 then
    some ⟨data, version, namespaceByte⟩
  else none

/-- Shallow embedding of `Base58Address.__str__`: the full payload is the
optional namespace byte, then the version byte, then the 20 data bytes; a
4-byte checksum `H(full_payload)[0:4]` is appended and the whole string is
base-58 encoded. `H` is the external `bitcoin.core.Hash` (double SHA-256).
-/
def Base58Address.toBase58 (H : List ℕ → List ℕ) (a : Base58Address) :
    List Char :=
  let fullPayload :=
    match a.namespaceByte with
    | none => a.version :: a.data
    | some ns => ns :: a.version :: a.data
  base58Encode (fullPayload ++ (H fullPayload).take 4)

/-- Shallow embedding of `Base58Address.from_string`: base-58 decode,
verify the trailing 4-byte checksum against `H` of the rest, then split by
total length — 26 bytes means namespace, version, 20 data bytes; 25 bytes
means no namespace; anything else is invalid. -/
def Base58Address.from_string (H : List ℕ → List ℕ) (s : List Char) :
    Option Base58Address :=
  match base58Decode s with
  | none => none
  | some db =>
    let checksum := db.drop (db.length - 4)
    let calculated := (H (db.take (db.length - 4))).take 4
    if checksum = calculated then
      if db.length = 26 then
        mkBase58Address ((db.drop 2).take 20) (db.getD 1 0)
          (some (db.getD 0 0))
      else if db.length = 25 then
        mkBase58Address ((db.drop 1).take 20) (db.getD 0 0) none
      else none
    else none

/-! # Theorems -/

/-! ## Rational helpers -/

theorem floorQ_eq (q : ℚ) : floorQ q = ⌊q⌋ := (Rat.floor_def).symm

theorem ceilQ_eq (q : ℚ) : ceilQ q = ⌈q⌉ := by
  rw [ceilQ, floorQ_eq, Int.floor_neg, neg_neg]

theorem pyInt_of_nonneg {q : ℚ} (h : 0 ≤ q) : pyInt q = ⌊q⌋ := by
  rw [pyInt, if_pos h, floorQ_eq]

/-! ## Distribution calculation -/

/-- Closed-form characterization of `_calculate_distribution` for a positive
price and a nonnegative effective amount. -/
theorem calculate_distribution_eq (v f d : ℤ) (p : ℚ) (hp : 0 < p)
    (he : 0 ≤ v - f - d) :
    calculate_distribution v p f d =
      (if (v - f - d) - ⌈((⌊((v - f - d : ℤ) : ℚ) / p⌋ : ℤ) : ℚ) * p⌉ < d then
        ((v - f - d), ⌊((v - f - d : ℤ) : ℚ) / p⌋, 0)
      else
        (⌈((⌊((v - f - d : ℤ) : ℚ) / p⌋ : ℤ) : ℚ) * p⌉,
         ⌊((v - f - d : ℤ) : ℚ) / p⌋,
         (v - f - d) - ⌈((⌊((v - f - d : ℤ) : ℚ) / p⌋ : ℤ) : ℚ) * p⌉)) := by
  have hq : (0 : ℚ) ≤ ((v - f - d : ℤ) : ℚ) / p := by
    apply div_nonneg _ (le_of_lt hp)
    exact_mod_cast he
  unfold calculate_distribution
  dsimp only
  rw [pyInt_of_nonneg hq, ceilQ_eq]
  by_cases hc :
      (v - f - d) - ⌈((⌊((v - f - d : ℤ) : ℚ) / p⌋ : ℤ) : ℚ) * p⌉ < d
  · simp only [hc, if_true]
    refine Prod.ext ?_ (Prod.ext rfl ?_) <;> dsimp only <;> ring
  · simp only [hc, if_false]

/-- Evaluation of the distribution calculation on the spec's scenario input
`(value 61, price 20, fees 10, dust 10)`: the code yields
`collected = 41`, `units_issued = 2`, `change = 0`. -/
theorem calculate_distribution_61_20_10_10 :
    calculate_distribution 61 20 10 10 = (41, 2, 0) := by
  rw [calculate_distribution_eq 61 10 10 20 (by norm_num) (by norm_num)]
  have h1 : ⌊(((61 - 10 - 10 : ℤ) : ℚ)) / 20⌋ = 2 := by norm_num
  rw [h1]
  norm_num

/-- Evaluation on `(value 61, price 20, fees 15, dust 10)` (the repository's
own test vector): `collected = 20`, `units_issued = 1`, `change = 16`. -/
theorem calculate_distribution_61_20_15_10 :
    calculate_distribution 61 20 15 10 = (20, 1, 16) := by
  rw [calculate_distribution_eq 61 15 10 20 (by norm_num) (by norm_num)]
  have h1 : ⌊(((61 - 15 - 10 : ℤ) : ℚ)) / 20⌋ = 1 := by norm_num
  rw [h1]
  norm_num

/-- Evaluation on `(value 25, price 20, fees 15, dust 10)`: no units issued. -/
theorem calculate_distribution_25_20_15_10 :
    calculate_distribution 25 20 15 10 = (0, 0, 0) := by
  rw [calculate_distribution_eq 25 15 10 20 (by norm_num) (by norm_num)]
  have h1 : ⌊(((25 - 15 - 10 : ℤ) : ℚ)) / 20⌋ = 0 := by norm_num
  rw [h1]
  norm_num

/-! ## Cache lemmas -/

theorem OutputType.ofValue_toNat (t : OutputType) :
    OutputType.ofValue t.toNat = t := by
  cases t <;> rfl

theorem lookup_append_of_none {α β : Type} [BEq α] {a : α}
    {l₁ : List (α × β)} (h : List.lookup a l₁ = none) (l₂ : List (α × β)) :
    List.lookup a (l₁ ++ l₂) = List.lookup a l₂ := by
  induction l₁ with
  | nil => rfl
  | cons e tl ih =>
    rcases e with ⟨k, v⟩
    cases hbeq : a == k with
    | true => simp [List.lookup, hbeq] at h
    | false =>
      simp only [List.lookup, hbeq] at h
      simpa only [List.cons_append, List.lookup, hbeq] using ih h

theorem lookup_put_self (cache : SqliteCache) (h : List ℕ) (i : ℕ)
    (d : TransactionOutput) :
    (List.lookup (h, i) (SqliteCache.put cache h i d)).isSome = true := by
  unfold SqliteCache.put
  rcases hl : List.lookup (h, i) cache with _ | v
  · rw [if_neg (by simp [hl])]
    rw [lookup_append_of_none hl]
    simp [List.lookup]
  · rw [if_pos (by simp [hl]), hl]
    rfl

/-- C5: `SqliteCache.put` is idempotent and ignores duplicate keys — for
every cache state, after `put(tx_hash, index, d1)`, a subsequent
`put(tx_hash, index, d2)` with any descriptor `d2` leaves the cache (hence
the entry stored under `(tx_hash, index)`, hence what `get` returns)
unchanged: the first stored descriptor wins. -/
theorem put_ignores_duplicate_key (cache : SqliteCache) (h : List ℕ) (i : ℕ)
    (d1 d2 : TransactionOutput) :
    SqliteCache.put (SqliteCache.put cache h i d1) h i d2 =
      SqliteCache.put cache h i d1 := by
  have hs := lookup_put_self cache h i d1
  generalize hq : SqliteCache.put cache h i d1 = c1 at hs ⊢
  unfold SqliteCache.put
  rw [if_pos hs]

/-- C6: `SqliteCache.get` returns `none` for a coordinate that has never
been stored, and after `put` on a fresh coordinate, `get` returns a
descriptor equal to the stored one in value, script, asset id, asset
quantity and output type (full round-trip through the stored columns). -/
theorem get_put_roundtrip (cache : SqliteCache) (h : List ℕ) (i : ℕ)
    (d : TransactionOutput)
    (hfresh : List.lookup (h, i) cache = none) :
    SqliteCache.get cache h i = none ∧
    SqliteCache.get (SqliteCache.put cache h i d) h i = some d := by
  constructor
  · unfold SqliteCache.get
    rw [hfresh]
  · unfold SqliteCache.put SqliteCache.get
    rw [if_neg (by simp [hfresh])]
    rw [lookup_append_of_none hfresh]
    have hone : List.lookup (h, i) [((h, i), toCacheRow d)] =
        some (toCacheRow d) := by
      simp [List.lookup]
    rw [hone]
    simp only [toCacheRow, OutputType.ofValue_toNat]

/-- Witness for C6 at a concrete fresh coordinate of the empty cache. -/
theorem get_put_roundtrip_witness :
    SqliteCache.get [] [1] 0 = none ∧
    SqliteCache.get (SqliteCache.put [] [1] 0 sampleOutput) [1] 0 =
      some sampleOutput :=
  get_put_roundtrip [] [1] 0 sampleOutput rfl

/-! ## `_get_unspent_outputs` commit discipline -/

theorem resolveLoop_no_commit
    (resolve : CacheKey → ℕ × Except ProviderError TransactionOutput)
    (items : List UnspentItem) :
    TraceEvent.cacheCommit ∉ (resolveLoop resolve items).1 := by
  induction items with
  | nil => simp [resolveLoop]
  | cons it rest ih =>
    unfold resolveLoop
    rcases hr : resolve it.outPoint with ⟨n, r⟩
    rcases r with e | out
    · simp [List.mem_replicate]
    · rcases hl : resolveLoop resolve rest with ⟨evs, res⟩
      rw [hl] at ih
      simp only at ih
      rcases res with e | outs <;>
        simp [List.mem_append, List.mem_replicate, ih]

theorem resolveLoop_events_are_getTransaction
    (resolve : CacheKey → ℕ × Except ProviderError TransactionOutput)
    (items : List UnspentItem) :
    ∀ ev ∈ (resolveLoop resolve items).1, ev = TraceEvent.getTransaction := by
  induction items with
  | nil => simp [resolveLoop]
  | cons it rest ih =>
    unfold resolveLoop
    rcases hr : resolve it.outPoint with ⟨n, r⟩
    rcases r with e | out
    · intro ev hev
      exact (List.eq_of_mem_replicate hev)
    · rcases hl : resolveLoop resolve rest with ⟨evs, res⟩
      rw [hl] at ih
      rcases res with e | outs
      · intro ev hev
        rcases List.mem_append.mp hev with hm | hm
        · exact List.eq_of_mem_replicate hm
        · exact ih ev hm
      · intro ev hev
        rcases List.mem_append.mp hev with hm | hm
        · exact List.eq_of_mem_replicate hm
        · exact ih ev hm

/-- C4: in every run of `Controller._get_unspent_outputs`, when the run
succeeds the cache commit appears exactly once in the event trace and is
the last event (after every output has been resolved); when the run fails
(the provider's `list_unspent` or any engine resolution raises), no commit
event occurs at all. -/
theorem getUnspentOutputs_commit_discipline
    (lu : Except ProviderError (List UnspentItem))
    (resolve : CacheKey → ℕ × Except ProviderError TransactionOutput) :
    (∀ outs, (getUnspentOutputsRun lu resolve).2 = .ok outs →
      List.count TraceEvent.cacheCommit (getUnspentOutputsRun lu resolve).1
          = 1 ∧
      (getUnspentOutputsRun lu resolve).1.getLast? =
          some TraceEvent.cacheCommit) ∧
    (∀ e, (getUnspentOutputsRun lu resolve).2 = .error e →
      TraceEvent.cacheCommit ∉ (getUnspentOutputsRun lu resolve).1) := by
  rcases lu with e | items
  · refine ⟨?_, ?_⟩
    · intro outs h
      exact absurd h (by simp [getUnspentOutputsRun])
    · intro e2 h
      show TraceEvent.cacheCommit ∉ [TraceEvent.listUnspent]
      simp
  · have hnc := resolveLoop_no_commit resolve items
    rcases hl : resolveLoop resolve items with ⟨evs, res⟩
    rw [hl] at hnc
    rcases res with e | outs
    · have hrun : getUnspentOutputsRun (.ok items) resolve =
          (TraceEvent.listUnspent :: evs, .error e) := by
        unfold getUnspentOutputsRun
        dsimp only
        rw [hl]
      rw [hrun]
      refine ⟨?_, ?_⟩
      · intro outs h
        exact absurd h (by simp)
      · intro e2 h
        simp only [List.mem_cons]
        rintro (hcontra | hcontra)
        · cases hcontra
        · exact hnc hcontra
    · have hrun : getUnspentOutputsRun (.ok items) resolve =
          (TraceEvent.listUnspent :: (evs ++ [TraceEvent.cacheCommit]),
           .ok outs) := by
        unfold getUnspentOutputsRun
        dsimp only
        rw [hl]
      rw [hrun]
      refine ⟨?_, ?_⟩
      · intro outs2 h
        refine ⟨?_, ?_⟩
        · have hzero : List.count TraceEvent.cacheCommit evs = 0 :=
            List.count_eq_zero.mpr hnc
          simp [List.count_cons, List.count_append, hzero]
        · rw [show TraceEvent.listUnspent ::
              (evs ++ [TraceEvent.cacheCommit]) =
              (TraceEvent.listUnspent :: evs) ++ [TraceEvent.cacheCommit] from
              rfl]
          exact List.getLast?_concat _
      · intro e2 h
        exact absurd h (by simp)

/-- Witness for C4: a successful run (one unspent output, resolved with one
`get_transaction` call) commits exactly once at the end, and a failing run
(engine resolution fails) never commits. -/
theorem getUnspentOutputs_commit_discipline_witness :
    (List.count TraceEvent.cacheCommit
        (getUnspentOutputsRun (.ok [⟨([1], 0), 3⟩])
          (fun _ => (1, .ok sampleOutput))).1 = 1 ∧
      (getUnspentOutputsRun (.ok [⟨([1], 0), 3⟩])
          (fun _ => (1, .ok sampleOutput))).1.getLast? =
        some TraceEvent.cacheCommit) ∧
    TraceEvent.cacheCommit ∉
      (getUnspentOutputsRun (.ok [⟨([1], 0), 3⟩])
        (fun _ => (0, .error .transactionNotFound))).1 :=
  ⟨(getUnspentOutputs_commit_discipline (.ok [⟨([1], 0), 3⟩])
      (fun _ => (1, .ok sampleOutput))).1 [⟨([1], 0), sampleOutput, 3⟩] rfl,
   (getUnspentOutputs_commit_discipline (.ok [⟨([1], 0), 3⟩])
      (fun _ => (0, .error .transactionNotFound))).2 .transactionNotFound rfl⟩

/-! ## `ChainApiProvider` signing and broadcasting -/

/-- C8: with no fallback provider configured, `ChainApiProvider`'s
`sign_transaction` and `send_transaction` both fail with the not-supported
error; with a fallback provider configured, both return exactly the
fallback provider's result. -/
theorem chainApi_sign_send_delegation (tx : Transaction) :
    ChainApiProvider.sign_transaction none tx = .error .notSupported ∧
    ChainApiProvider.send_transaction none tx = .error .notSupported ∧
    ∀ p : FallbackProvider,
      ChainApiProvider.sign_transaction (some p) tx = p.signTransaction tx ∧
      ChainApiProvider.send_transaction (some p) tx = p.sendTransaction tx :=
  ⟨rfl, rfl, fun _p => ⟨rfl, rfl⟩⟩

/-! ## `sendbitcoin` validation ordering -/

theorem getUnspentOutputsRun_event_kinds
    (lu : Except ProviderError (List UnspentItem))
    (resolve : CacheKey → ℕ × Except ProviderError TransactionOutput) :
    TraceEvent.listUnspent ∈ (getUnspentOutputsRun lu resolve).1 ∧
    ∀ ev ∈ (getUnspentOutputsRun lu resolve).1,
      ev = TraceEvent.listUnspent ∨ ev = TraceEvent.getTransaction ∨
        ev = TraceEvent.cacheCommit := by
  rcases lu with e | items
  · refine ⟨List.mem_singleton.mpr rfl, ?_⟩
    intro ev hev
    left
    exact List.mem_singleton.mp hev
  · have hev := resolveLoop_events_are_getTransaction resolve items
    rcases hl : resolveLoop resolve items with ⟨evs, res⟩
    rw [hl] at hev
    rcases res with e | outs
    · have hrun : getUnspentOutputsRun (.ok items) resolve =
          (TraceEvent.listUnspent :: evs, .error e) := by
        unfold getUnspentOutputsRun
        dsimp only
        rw [hl]
      rw [hrun]
      refine ⟨List.mem_cons_self _ _, ?_⟩
      intro ev hmem
      rcases List.mem_cons.mp hmem with hh | hh
      · left; exact hh
      · right; left; exact hev ev hh
    · have hrun : getUnspentOutputsRun (.ok items) resolve =
          (TraceEvent.listUnspent :: (evs ++ [TraceEvent.cacheCommit]),
           .ok outs) := by
        unfold getUnspentOutputsRun
        dsimp only
        rw [hl]
      rw [hrun]
      refine ⟨List.mem_cons_self _ _, ?_⟩
      intro ev hmem
      rcases List.mem_cons.mp hmem with hh | hh
      · left; exact hh
      · rcases List.mem_append.mp hh with hm | hm
        · right; left; exact hev ev hm
        · right; right; exact List.mem_singleton.mp hm

/-- C7 (amended): in `sendbitcoin`, a malformed from- or to-address is
rejected before any provider call (empty event trace); with valid addresses,
a non-numeric amount raises the user-facing validation error only after the
unspent outputs have been fetched and resolved (the trace contains the
`list_unspent` call), but before the transaction is built, signed or
broadcast (no sign/send events), so no state-changing side effect occurs. -/
theorem sendbitcoin_validation_order (cfg : Configuration)
    (env : ControllerEnv) (address amount toAddr : String)
    (fees : Option String) (mode : String) :
    (env.parseP2PKHAddress address = none →
      sendbitcoin cfg env address amount toAddr fees mode =
        ([], .error (.controller .invalidAddress))) ∧
    (∀ a, env.parseP2PKHAddress address = some a →
      env.parseAddress toAddr = none →
      sendbitcoin cfg env address amount toAddr fees mode =
        ([], .error (.controller .invalidAddress))) ∧
    (∀ a b outs, env.parseP2PKHAddress address = some a →
      env.parseAddress toAddr = some b →
      (getUnspentOutputsRun env.listUnspentResult env.resolveOutput).2 =
        .ok outs →
      pyParseInt amount = none →
      sendbitcoin cfg env address amount toAddr fees mode =
        ((getUnspentOutputsRun env.listUnspentResult env.resolveOutput).1,
         .error (.controller .invalidInteger)) ∧
      TraceEvent.listUnspent ∈
        (sendbitcoin cfg env address amount toAddr fees mode).1 ∧
      TraceEvent.signTransaction ∉
        (sendbitcoin cfg env address amount toAddr fees mode).1 ∧
      TraceEvent.sendTransaction ∉
        (sendbitcoin cfg env address amount toAddr fees mode).1) := by
  refine ⟨?_, ?_, ?_⟩
  · intro h1
    unfold sendbitcoin
    rw [h1]
  · intro a h1 h2
    unfold sendbitcoin
    rw [h1, h2]
  · intro a b outs h1 h2 h3 h4
    have hkinds := getUnspentOutputsRun_event_kinds env.listUnspentResult
      env.resolveOutput
    rcases hrun : getUnspentOutputsRun env.listUnspentResult env.resolveOutput
      with ⟨evs, res⟩
    rw [hrun] at h3 hkinds
    have h3' : res = .ok outs := h3
    subst h3'
    have hmain : sendbitcoin cfg env address amount toAddr fees mode =
        (evs, .error (.controller .invalidInteger)) := by
      unfold sendbitcoin
      rw [h1, h2, hrun, h4]
    refine ⟨?_, ?_, ?_, ?_⟩
    · rw [hmain]
    · rw [hmain]
      exact hkinds.1
    · rw [hmain]
      intro hmem
      rcases hkinds.2 _ hmem with h | h | h <;> exact TraceEvent.noConfusion h
    · rw [hmain]
      intro hmem
      rcases hkinds.2 _ hmem with h | h | h <;> exact TraceEvent.noConfusion h

/-- Counterexample to C7 as stated: `sendbitcoin` with valid addresses and
the non-numeric amount string `abc` does raise the validation error, but the
event trace already contains the `list_unspent` provider call — the check
does not happen before touching the provider. -/
theorem sendbitcoin_amount_checked_after_provider :
    (sendbitcoin ⟨10, 15⟩ sampleEnv "a" "abc" "b" none "unsigned").2 =
      .error (.controller .invalidInteger) ∧
    TraceEvent.listUnspent ∈
      (sendbitcoin ⟨10, 15⟩ sampleEnv "a" "abc" "b" none "unsigned").1 := by
  constructor
  · rfl
  · exact List.mem_cons_self _ _

/-- Witness for the amended C7 at concrete inputs: a bad from-address gives
the validation error with an empty trace, and a non-numeric amount gives the
validation error with the provider trace, without sign/send events. -/
theorem sendbitcoin_validation_order_witness :
    (sendbitcoin ⟨10, 15⟩ sampleEnvBadAddress "a" "1" "b" none "unsigned" =
      ([], .error (.controller .invalidAddress))) ∧
    (sendbitcoin ⟨10, 15⟩ sampleEnv "a" "abc" "b" none "unsigned" =
      ((getUnspentOutputsRun sampleEnv.listUnspentResult
          sampleEnv.resolveOutput).1,
       .error (.controller .invalidInteger)) ∧
     TraceEvent.listUnspent ∈
       (sendbitcoin ⟨10, 15⟩ sampleEnv "a" "abc" "b" none "unsigned").1 ∧
     TraceEvent.signTransaction ∉
       (sendbitcoin ⟨10, 15⟩ sampleEnv "a" "abc" "b" none "unsigned").1 ∧
     TraceEvent.sendTransaction ∉
       (sendbitcoin ⟨10, 15⟩ sampleEnv "a" "abc" "b" none "unsigned").1) :=
  ⟨(sendbitcoin_validation_order ⟨10, 15⟩ sampleEnvBadAddress "a" "1" "b"
      none "unsigned").1 rfl,
   (sendbitcoin_validation_order ⟨10, 15⟩ sampleEnv "a" "abc" "b"
      none "unsigned").2.2 ⟨[1]⟩ ⟨[2]⟩ [] rfl rfl rfl rfl⟩

/-! ## Distribution calculation: claims C1 and C9 -/

/-- Counterexample to C1 as stated: on input value 61, price 20, fees 10,
dust limit 10, `_calculate_distribution` returns `(collected, units_issued,
change) = (41, 2, 0)` — the remainder over the whole units is computed from
`value - fees - dust_limit = 41`, leaving `41 - 40 = 1`, which is below the
dust limit and therefore folded into `collected`; the claim's
`(40, 2, 11)` (change `61 - 10 - 40` kept separate) is not what the code
returns. -/
theorem distribution_spec_scenario_counterexample :
    calculate_distribution 61 20 10 10 = (41, 2, 0) ∧
    calculate_distribution 61 20 10 10 ≠ (40, 2, 11) := by
  refine ⟨calculate_distribution_61_20_10_10, ?_⟩
  rw [calculate_distribution_61_20_10_10]
  decide

/-- C1 (amended): for a positive per-unit price and nonnegative effective
amount `v - f - d`, the distribution calculation returns
`units_issued = ⌊(v - f - d) / p⌋` and `collected = ⌈units_issued * p⌉`,
with the change equal to `(v - f - d) - collected` (not `(v - f) -
collected`), folded into `collected` when below the dust limit; in
particular, for `v = 61, p = 20, f = 10, d = 10` it returns `units_issued =
2`, `collected = 41` and `change = 0`, the remainder 1 being dust. -/
theorem distribution_formula_amended (v f d : ℤ) (p : ℚ) (hp : 0 < p)
    (he : 0 ≤ v - f - d) :
    calculate_distribution v p f d =
      (if (v - f - d) - ⌈((⌊((v - f - d : ℤ) : ℚ) / p⌋ : ℤ) : ℚ) * p⌉ < d then
        ((v - f - d), ⌊((v - f - d : ℤ) : ℚ) / p⌋, 0)
      else
        (⌈((⌊((v - f - d : ℤ) : ℚ) / p⌋ : ℤ) : ℚ) * p⌉,
         ⌊((v - f - d : ℤ) : ℚ) / p⌋,
         (v - f - d) - ⌈((⌊((v - f - d : ℤ) : ℚ) / p⌋ : ℤ) : ℚ) * p⌉)) ∧
    calculate_distribution 61 20 10 10 = (41, 2, 0) :=
  ⟨calculate_distribution_eq v f d p hp he, calculate_distribution_61_20_10_10⟩

/-- Witness for the amended C1 at the concrete scenario input. -/
theorem distribution_formula_amended_witness :
    calculate_distribution 61 20 10 10 = (41, 2, 0) :=
  (distribution_formula_amended 61 10 10 20 (by norm_num) (by norm_num)).2

/-- C9: for every input value, fee, dust limit and positive price, the
triple `(collected, units_issued, change)` conserves the effective amount —
`collected + change = v - f - d` — and the returned change is either zero
(after dust folding) or at least the dust limit. -/
theorem distribution_conservation (v f d : ℤ) (p : ℚ) (_hp : 0 < p) :
    (calculate_distribution v p f d).1 +
        (calculate_distribution v p f d).2.2 = v - f - d ∧
    ((calculate_distribution v p f d).2.2 = 0 ∨
      d ≤ (calculate_distribution v p f d).2.2) := by
  unfold calculate_distribution
  dsimp only
  by_cases hc : v - f - d -
      ceilQ (((pyInt (((v - f - d : ℤ) : ℚ) / p)) : ℚ) * p) < d
  · rw [if_pos hc]
    refine ⟨by ring, Or.inl (by ring)⟩
  · rw [if_neg hc]
    refine ⟨by ring, Or.inr (by omega)⟩

/-- Witness for C9 at the concrete scenario input. -/
theorem distribution_conservation_witness :
    (calculate_distribution 61 20 10 10).1 +
        (calculate_distribution 61 20 10 10).2.2 = 61 - 10 - 10 ∧
    ((calculate_distribution 61 20 10 10).2.2 = 0 ∨
      (10 : ℤ) ≤ (calculate_distribution 61 20 10 10).2.2) :=
  distribution_conservation 61 10 10 20 (by norm_num)

/-! ## `distribute`: claims C2 and C3 -/

theorem getUncoloredOutput_ok {d : ℤ} {s : List ℕ} {v : ℤ} {t : TxOut}
    (h : getUncoloredOutput d s v = .ok t) : t = ⟨v, s⟩ := by
  unfold getUncoloredOutput at h
  by_cases hc : v < d
  · rw [if_pos hc] at h
    exact Except.noConfusion h
  · rw [if_neg hc] at h
    injection h with h
    exact h.symm

/-- Shape of the single transaction built by `distribute` for a qualifying
input: one input carrying the inbound outpoint, then the colored output,
the marker output carrying the single issued quantity and the metadata, the
collected-funds output to the forward script, and a change output exactly
when the change is positive. -/
theorem distributeTx_ok (cfg : Configuration) (getTx : List ℕ → Transaction)
    (deriveScript : List ℕ → Option (List ℕ)) (price : ℚ) (fees : ℤ)
    (metadata toScript : List ℕ) (o : SpendableOutput) (tx : Transaction)
    (h : distributeTx cfg getTx deriveScript price fees metadata toScript o =
      .ok tx) :
    tx = ⟨[⟨o.outPoint, o.output.script⟩],
          [getColoredOutput cfg.dustLimit
             ((deriveScript (senderScript getTx o)).getD
               (senderScript getTx o)),
           getMarkerOutput
             [(calculate_distribution o.output.value price fees
                 cfg.dustLimit).2.1] metadata,
           ⟨(calculate_distribution o.output.value price fees
               cfg.dustLimit).1, toScript⟩] ++
          (if 0 < (calculate_distribution o.output.value price fees
               cfg.dustLimit).2.2
           then [⟨(calculate_distribution o.output.value price fees
                    cfg.dustLimit).2.2, senderScript getTx o⟩]
           else [])⟩ := by
  unfold distributeTx at h
  dsimp only at h
  rcases hcu : getUncoloredOutput cfg.dustLimit toScript
      (calculate_distribution o.output.value price fees cfg.dustLimit).1
    with e | collectedOut
  · rw [hcu] at h
    exact Except.noConfusion h
  · rw [hcu] at h
    have hcoll := getUncoloredOutput_ok hcu
    subst hcoll
    by_cases hch :
        0 < (calculate_distribution o.output.value price fees
          cfg.dustLimit).2.2
    · rw [if_pos hch] at h
      rcases hcu2 : getUncoloredOutput cfg.dustLimit (senderScript getTx o)
          (calculate_distribution o.output.value price fees cfg.dustLimit).2.2
        with e2 | changeOut
      · rw [hcu2] at h
        exact Except.noConfusion h
      · rw [hcu2] at h
        have hchg := getUncoloredOutput_ok hcu2
        subst hchg
        injection h with h
        rw [if_pos hch]
        exact h.symm
    · rw [if_neg hch] at h
      injection h with h
      rw [if_neg hch]
      exact h.symm

/-- Concrete run of the `distribute` loop: price 20, fees 15, dust limit
10, forward script `[7]`, over the pool `[value 61, value 25]` — the first
input issues 1 unit and yields one transaction, the second issues nothing. -/
theorem distribute_eval :
    distribute ⟨10, 0⟩ sampleGetTx (fun _ => none) 20 15 [] [7]
      [sampleOutput61, sampleOutput25] = .ok [sampleDistributeTransaction] := by
  simp only [distribute, distributeTx, senderScript, sampleGetTx,
    sampleOutput61, sampleOutput25, sampleDistributeTransaction,
    getUncoloredOutput, getColoredOutput,
    calculate_distribution_61_20_15_10, calculate_distribution_25_20_15_10,
    Option.getD_none]
  norm_num

/-- C2: for every successful run of the `distribute` loop over a pool of
unspent outputs, the produced transactions' input lists are exactly one
singleton list per input whose issued amount is positive, in pool order —
each qualifying input yields exactly one standalone transaction spending
exactly that inbound outpoint, and inputs with a non-positive issued amount
yield no transaction. -/
theorem distribute_one_transaction_per_input (cfg : Configuration)
    (getTx : List ℕ → Transaction) (deriveScript : List ℕ → Option (List ℕ))
    (price : ℚ) (fees : ℤ) (metadata toScript : List ℕ) :
    ∀ (outs : List SpendableOutput) (txs : List Transaction),
      distribute cfg getTx deriveScript price fees metadata toScript outs =
        .ok txs →
      txs.map Transaction.vin =
        (outs.filter fun o => decide
          (0 < (calculate_distribution o.output.value price fees
            cfg.dustLimit).2.1)).map
          (fun o => [⟨o.outPoint, o.output.script⟩]) := by
  intro outs
  induction outs with
  | nil =>
    intro txs h
    injection h with h
    subst h
    rfl
  | cons o rest ih =>
    intro txs h
    unfold distribute at h
    dsimp only at h
    by_cases hq :
        0 < (calculate_distribution o.output.value price fees
          cfg.dustLimit).2.1
    · rw [if_pos hq] at h
      rcases hdt : distributeTx cfg getTx deriveScript price fees metadata
          toScript o with e | tx
      · rw [hdt] at h
        exact Except.noConfusion h
      · rw [hdt] at h
        rcases hrec : distribute cfg getTx deriveScript price fees metadata
            toScript rest with e2 | txs2
        · rw [hrec] at h
          exact Except.noConfusion h
        · rw [hrec] at h
          injection h with h
          subst h
          have hvin : tx.vin = [⟨o.outPoint, o.output.script⟩] := by
            rw [distributeTx_ok cfg getTx deriveScript price fees metadata
              toScript o tx hdt]
          rw [List.map_cons, hvin,
            List.filter_cons_of_pos (by simpa using hq), List.map_cons,
            ih txs2 hrec]
    · rw [if_neg hq] at h
      rw [List.filter_cons_of_neg (by simpa using hq)]
      exact ih txs h

/-- Witness for C2: a concrete pool with one qualifying input (value 61)
and one non-qualifying input (value 25) at price 20, fees 15, dust 10. -/
theorem distribute_one_transaction_per_input_witness :
    [sampleDistributeTransaction].map Transaction.vin =
      ([sampleOutput61, sampleOutput25].filter fun o => decide
        (0 < (calculate_distribution o.output.value 20 15
          (Configuration.mk 10 0).dustLimit).2.1)).map
        (fun o => [⟨o.outPoint, o.output.script⟩]) :=
  distribute_one_transaction_per_input ⟨10, 0⟩ sampleGetTx (fun _ => none)
    20 15 [] [7] [sampleOutput61, sampleOutput25]
    [sampleDistributeTransaction] distribute_eval

/-- C3: every transaction produced by a successful run of the `distribute`
loop has its outputs in this order — the colored issuance output, the
marker output encoding the flat quantity list `[units_issued]` together
with the metadata bytes, the uncolored collected-funds output, and a
bitcoin change output present exactly when the computed change is positive
(below-dust change having been folded into `collected` by the distribution
calculation rather than dropped). -/
theorem distribute_output_ordering (cfg : Configuration)
    (getTx : List ℕ → Transaction) (deriveScript : List ℕ → Option (List ℕ))
    (price : ℚ) (fees : ℤ) (metadata toScript : List ℕ) :
    ∀ (outs : List SpendableOutput) (txs : List Transaction),
      distribute cfg getTx deriveScript price fees metadata toScript outs =
        .ok txs →
      ∀ tx ∈ txs, ∃ o ∈ outs,
        0 < (calculate_distribution o.output.value price fees
          cfg.dustLimit).2.1 ∧
        tx.vout =
          [getColoredOutput cfg.dustLimit
             ((deriveScript (senderScript getTx o)).getD
               (senderScript getTx o)),
           getMarkerOutput
             [(calculate_distribution o.output.value price fees
                 cfg.dustLimit).2.1] metadata,
           ⟨(calculate_distribution o.output.value price fees
               cfg.dustLimit).1, toScript⟩] ++
          (if 0 < (calculate_distribution o.output.value price fees
               cfg.dustLimit).2.2
           then [⟨(calculate_distribution o.output.value price fees
                    cfg.dustLimit).2.2, senderScript getTx o⟩]
           else []) := by
  intro outs
  induction outs with
  | nil =>
    intro txs h
    injection h with h
    subst h
    intro tx htx
    exact absurd htx (List.not_mem_nil tx)
  | cons o rest ih =>
    intro txs h
    unfold distribute at h
    dsimp only at h
    by_cases hq :
        0 < (calculate_distribution o.output.value price fees
          cfg.dustLimit).2.1
    · rw [if_pos hq] at h
      rcases hdt : distributeTx cfg getTx deriveScript price fees metadata
          toScript o with e | tx
      · rw [hdt] at h
        exact Except.noConfusion h
      · rw [hdt] at h
        rcases hrec : distribute cfg getTx deriveScript price fees metadata
            toScript rest with e2 | txs2
        · rw [hrec] at h
          exact Except.noConfusion h
        · rw [hrec] at h
          injection h with h
          subst h
          intro tx2 htx2
          rcases List.mem_cons.mp htx2 with hh | hh
          · subst hh
            refine ⟨o, List.mem_cons_self _ _, hq, ?_⟩
            rw [distributeTx_ok cfg getTx deriveScript price fees metadata
              toScript o tx2 hdt]
          · rcases ih txs2 hrec tx2 hh with ⟨o2, ho2, hq2, hv2⟩
            exact ⟨o2, List.mem_cons_of_mem _ ho2, hq2, hv2⟩
    · rw [if_neg hq] at h
      intro tx2 htx2
      rcases ih txs h tx2 htx2 with ⟨o2, ho2, hq2, hv2⟩
      exact ⟨o2, List.mem_cons_of_mem _ ho2, hq2, hv2⟩

/-- Witness for C3: the transaction produced by the concrete run of
`distribute_eval` has the claimed output ordering for some input of the
pool. -/
theorem distribute_output_ordering_witness :
    ∃ o ∈ [sampleOutput61, sampleOutput25],
      0 < (calculate_distribution o.output.value 20 15
        (Configuration.mk 10 0).dustLimit).2.1 ∧
      sampleDistributeTransaction.vout =
        [getColoredOutput (Configuration.mk 10 0).dustLimit
           (((fun _ => none) (senderScript sampleGetTx o)).getD
             (senderScript sampleGetTx o)),
         getMarkerOutput
           [(calculate_distribution o.output.value 20 15
               (Configuration.mk 10 0).dustLimit).2.1] [],
         ⟨(calculate_distribution o.output.value 20 15
             (Configuration.mk 10 0).dustLimit).1, [7]⟩] ++
        (if 0 < (calculate_distribution o.output.value 20 15
             (Configuration.mk 10 0).dustLimit).2.2
         then [⟨(calculate_distribution o.output.value 20 15
                  (Configuration.mk 10 0).dustLimit).2.2,
                senderScript sampleGetTx o⟩]
         else []) :=
  distribute_output_ordering ⟨10, 0⟩ sampleGetTx (fun _ => none) 20 15 [] [7]
    [sampleOutput61, sampleOutput25] [sampleDistributeTransaction]
    distribute_eval sampleDistributeTransaction (List.mem_singleton.mpr rfl)

/-! ## Base58: claim C10 -/

theorem b58Index_b58CharOf : ∀ d < 58, b58Index (b58CharOf d) = d := by decide

theorem b58Valid_b58CharOf : ∀ d < 58, b58Valid (b58CharOf d) = true := by
  decide

theorem b58CharOf_ne_one : ∀ d < 58, d ≠ 0 → b58CharOf d ≠ '1' := by decide

theorem b58Index_one : b58Index '1' = 0 := by decide

theorem b58Valid_one : b58Valid '1' = true := by decide

theorem foldl_mul_add (b : ℕ) (ds : List ℕ) : ∀ a : ℕ,
    ds.foldl (fun n d => n * b + d) a =
      Nat.ofDigits b ds.reverse + a * b ^ ds.length := by
  induction ds with
  | nil =>
    intro a
    simp [Nat.ofDigits_nil]
  | cons d tl ih =>
    intro a
    rw [List.foldl_cons, ih, List.reverse_cons, Nat.ofDigits_append]
    simp only [Nat.ofDigits_cons, Nat.ofDigits_nil, List.length_reverse,
      List.length_cons]
    ring

theorem bytesToNat_cons_zero (bs : List ℕ) :
    bytesToNat (0 :: bs) = bytesToNat bs := rfl

theorem bytesToNat_eq_ofDigits (bs : List ℕ) :
    bytesToNat bs = Nat.ofDigits 256 bs.reverse := by
  have h := foldl_mul_add 256 bs 0
  simpa [bytesToNat] using h

theorem base58Encode_cons_zero (bs : List ℕ) :
    base58Encode (0 :: bs) = '1' :: base58Encode bs := by
  unfold base58Encode countLeadingZeroBytes
  rw [bytesToNat_cons_zero]
  simp [List.takeWhile_cons, List.replicate_succ]

theorem base58Decode_cons_one (s : List Char) :
    base58Decode ('1' :: s) = (base58Decode s).map (fun bs => 0 :: bs) := by
  by_cases hs : s = []
  · subst hs
    rfl
  · by_cases hv : s.all b58Valid
    · unfold base58Decode
      rw [if_neg (by simp), if_neg hs, if_pos hv]
      rw [if_pos (show ('1' :: s).all b58Valid = true by
        rw [List.all_cons, b58Valid_one, Bool.true_and]; exact hv)]
      dsimp only
      have hfold : List.foldl (fun n c => n * 58 + b58Index c) 0 ('1' :: s) =
          List.foldl (fun n c => n * 58 + b58Index c) 0 s := by
        rw [List.foldl_cons, b58Index_one]
      rw [hfold]
      rw [List.dropLast_cons_of_ne_nil hs, List.takeWhile_cons]
      simp [List.replicate_succ]
    · unfold base58Decode
      rw [if_neg (by simp), if_neg hs]
      have hv' : (('1' :: s).all b58Valid) = false := by
        rw [List.all_cons, b58Valid_one, Bool.true_and]
        simpa using hv
      rw [if_neg (by simp [hv']), if_neg (by simpa using hv)]
      rfl

theorem takeWhile_one_dropLast_nil (c : Char) (s : List Char) (hc : c ≠ '1') :
    ((c :: s).dropLast.takeWhile (fun x => x == '1')) = [] := by
  cases s with
  | nil => rfl
  | cons d t =>
    rw [List.dropLast_cons_of_ne_nil (by simp), List.takeWhile_cons]
    rw [show (c == '1') = false from beq_eq_false_iff_ne.mpr hc]
    rfl

theorem base58_roundtrip_ne_zero (hd : ℕ) (tl : List ℕ) (hhd : hd ≠ 0)
    (hlt : ∀ b ∈ hd :: tl, b < 256) :
    base58Decode (base58Encode (hd :: tl)) = some (hd :: tl) := by
  have hstep : Nat.digits 256 (bytesToNat (hd :: tl)) = (hd :: tl).reverse := by
    rw [bytesToNat_eq_ofDigits]
    apply Nat.digits_ofDigits 256 (by norm_num)
    · intro x hx
      exact hlt x (List.mem_reverse.mp hx)
    · intro h2
      have h4 : (hd :: tl).reverse.getLast? = some hd := by
        rw [List.getLast?_reverse]
        rfl
      rw [List.getLast?_eq_getLast _ h2] at h4
      injection h4 with h4
      rw [h4]
      exact hhd
  have hne : bytesToNat (hd :: tl) ≠ 0 := by
    intro h0
    rw [h0, Nat.digits_zero] at hstep
    exact (by simp : ((hd :: tl).reverse : List ℕ) ≠ []) hstep.symm
  have hk : countLeadingZeroBytes (hd :: tl) = 0 := by
    unfold countLeadingZeroBytes
    rw [List.takeWhile_cons,
      show (hd == 0) = false from beq_eq_false_iff_ne.mpr hhd]
    rfl
  have henc : base58Encode (hd :: tl) =
      (Nat.digits 58 (bytesToNat (hd :: tl))).reverse.map b58CharOf := by
    unfold base58Encode
    rw [hk]
    simp
  set n := bytesToNat (hd :: tl) with hn
  set ds := (Nat.digits 58 n).reverse with hds
  have hdne : Nat.digits 58 n ≠ [] := Nat.digits_ne_nil_iff_ne_zero.mpr hne
  have hdsne : ds ≠ [] := by
    rw [hds]
    simpa [List.reverse_eq_nil_iff] using hdne
  have hdd : ∀ d ∈ ds, d < 58 := by
    intro d hd2
    exact Nat.digits_lt_base (by norm_num) (List.mem_reverse.mp (hds ▸ hd2))
  obtain ⟨c0, s0, hcs⟩ : ∃ c0 s0, ds.map b58CharOf = c0 :: s0 := by
    rcases hm : ds.map b58CharOf with _ | ⟨c0, s0⟩
    · exact absurd (List.map_eq_nil_iff.mp hm) hdsne
    · exact ⟨c0, s0, rfl⟩
  have hvalid : ((c0 :: s0).all b58Valid) = true := by
    rw [← hcs, List.all_eq_true]
    intro c hc
    rcases List.mem_map.mp hc with ⟨d, hdmem, rfl⟩
    exact b58Valid_b58CharOf d (hdd d hdmem)
  have hc0 : c0 ≠ '1' := by
    rcases hds2 : ds with _ | ⟨d0, ds'⟩
    · exact absurd hds2 hdsne
    · rw [hds2, List.map_cons] at hcs
      have hch : b58CharOf d0 = c0 := by
        injection hcs
      have hd0lt : d0 < 58 := hdd d0 (hds2 ▸ List.mem_cons_self _ _)
      have hd0ne : d0 ≠ 0 := by
        have hdig : Nat.digits 58 n = ds'.reverse ++ [d0] := by
          rw [← List.reverse_reverse (Nat.digits 58 n), ← hds, hds2,
            List.reverse_cons]
        have hgl? : (Nat.digits 58 n).getLast? = some d0 := by
          rw [hdig]
          exact List.getLast?_concat _
        rw [List.getLast?_eq_getLast _ hdne] at hgl?
        injection hgl? with hgl
        rw [← hgl]
        exact Nat.getLast_digit_ne_zero 58 hne
      rw [← hch]
      exact b58CharOf_ne_one d0 hd0lt hd0ne
  have hfold : List.foldl (fun x c => x * 58 + b58Index c) 0 (c0 :: s0) =
      n := by
    rw [← hcs, List.foldl_map]
    rw [List.foldl_ext (fun x d => x * 58 + b58Index (b58CharOf d))
      (fun x d => x * 58 + d) 0
      (fun a d hdmem => by
        show a * 58 + b58Index (b58CharOf d) = a * 58 + d
        rw [b58Index_b58CharOf d (hdd d hdmem)])]
    rw [foldl_mul_add, hds, List.reverse_reverse, Nat.ofDigits_digits]
    simp
  rw [henc, hcs]
  unfold base58Decode
  rw [if_neg (by simp), if_pos hvalid]
  dsimp only
  rw [hfold, if_neg hne, hstep, List.reverse_reverse]
  rw [takeWhile_one_dropLast_nil c0 s0 hc0]
  simp

theorem base58_decode_encode : ∀ bs : List ℕ, (∀ b ∈ bs, b < 256) →
    base58Decode (base58Encode bs) = some bs := by
  intro bs
  induction bs with
  | nil =>
    intro _
    simp [base58Encode, base58Decode, countLeadingZeroBytes, bytesToNat]
  | cons hd tl ih =>
    intro h
    by_cases hz : hd = 0
    · subst hz
      rw [base58Encode_cons_zero, base58Decode_cons_one,
        ih (fun b hb => h b (List.mem_cons_of_mem _ hb))]
      rfl
    · exact base58_roundtrip_ne_zero hd tl hz h

/-- C10: for every 20-byte payload, version byte and optional namespace
byte, encoding a `Base58Address` to its base-58 string (version/namespace
prepended, 4-byte checksum `H(payload)[0:4]` appended, base-58 encoded) and
parsing that string back with `from_string` recovers the same payload,
version and namespace; the checksum is recomputed and verified on the way
back. `H` is the external double-SHA256, constrained only to produce at
least 4 bytes. -/
theorem base58Address_string_roundtrip (H : List ℕ → List ℕ)
    (hH4 : ∀ bs, 4 ≤ (H bs).length)
    (hHlt : ∀ bs, ∀ b ∈ H bs, b < 256)
    (data : List ℕ) (hlen : data.length = 20) (hdata : ∀ b ∈ data, b < 256)
    (version : ℕ) (hv : version < 256)
    (nsb : Option ℕ) (hns : ∀ m ∈ nsb, m < 256) :
    Base58Address.from_string H
        (Base58Address.toBase58 H ⟨data, version, nsb⟩) =
      some ⟨data, version, nsb⟩ := by
  rcases nsb with _ | ns
  · unfold Base58Address.toBase58
    dsimp only
    have hall : ∀ b ∈ (version :: data) ++ (H (version :: data)).take 4,
        b < 256 := by
      intro b hb
      rcases List.mem_append.mp hb with hm | hm
      · rcases List.mem_cons.mp hm with rfl | hm2
        · exact hv
        · exact hdata b hm2
      · exact hHlt _ b (List.take_subset _ _ hm)
    unfold Base58Address.from_string
    rw [base58_decode_encode _ hall]
    dsimp only
    have hlc : ((H (version :: data)).take 4).length = 4 := by
      rw [List.length_take]
      exact Nat.min_eq_left (hH4 _)
    have hdb : ((version :: data) ++ (H (version :: data)).take 4).length =
        25 := by
      rw [List.length_append, List.length_cons, hlen, hlc]
    rw [hdb]
    rw [List.drop_left' (show (version :: data).length = 25 - 4 by
      simp [hlen])]
    rw [List.take_left' (show (version :: data).length = 25 - 4 by
      simp [hlen])]
    rw [if_pos rfl]
    rw [if_neg (by norm_num), if_pos rfl]
    rw [show (version :: data) ++ (H (version :: data)).take 4 =
      version :: (data ++ (H (version :: data)).take 4) from rfl]
    rw [show (version :: (data ++ (H (version :: data)).take 4)).drop 1 =
      data ++ (H (version :: data)).take 4 from rfl]
    rw [List.take_left' hlen]
    rw [List.getD_cons_zero]
    unfold mkBase58Address
    rw [if_pos (by simp [hv, hlen])]
  · unfold Base58Address.toBase58
    dsimp only
    have hnslt : ns < 256 := hns ns rfl
    have hall : ∀ b ∈ (ns :: version :: data) ++
        (H (ns :: version :: data)).take 4, b < 256 := by
      intro b hb
      rcases List.mem_append.mp hb with hm | hm
      · rcases List.mem_cons.mp hm with rfl | hm2
        · exact hnslt
        · rcases List.mem_cons.mp hm2 with rfl | hm3
          · exact hv
          · exact hdata b hm3
      · exact hHlt _ b (List.take_subset _ _ hm)
    unfold Base58Address.from_string
    rw [base58_decode_encode _ hall]
    dsimp only
    have hlc : ((H (ns :: version :: data)).take 4).length = 4 := by
      rw [List.length_take]
      exact Nat.min_eq_left (hH4 _)
    have hdb : ((ns :: version :: data) ++
        (H (ns :: version :: data)).take 4).length = 26 := by
      rw [List.length_append, List.length_cons, List.length_cons, hlen, hlc]
    rw [hdb]
    rw [List.drop_left' (show (ns :: version :: data).length = 26 - 4 by
      simp [hlen])]
    rw [List.take_left' (show (ns :: version :: data).length = 26 - 4 by
      simp [hlen])]
    rw [if_pos rfl]
    rw [if_pos rfl]
    rw [show (ns :: version :: data) ++
        (H (ns :: version :: data)).take 4 =
      ns :: version :: (data ++ (H (ns :: version :: data)).take 4) from rfl]
    rw [show (ns :: version ::
        (data ++ (H (ns :: version :: data)).take 4)).drop 2 =
      data ++ (H (ns :: version :: data)).take 4 from rfl]
    rw [List.take_left' hlen]
    rw [List.getD_cons_succ, List.getD_cons_zero, List.getD_cons_zero]
    unfold mkBase58Address
    rw [if_pos (by simp [hv, hlen, hnslt])]

/-- Witness for C10 at a concrete address (all-zero payload, version 0, no
namespace, constant hash function). -/
theorem base58Address_string_roundtrip_witness :
    Base58Address.from_string (fun _ => [0, 0, 0, 0])
        (Base58Address.toBase58 (fun _ => [0, 0, 0, 0])
          ⟨List.replicate 20 0, 0, none⟩) =
      some ⟨List.replicate 20 0, 0, none⟩ :=
  base58Address_string_roundtrip (fun _ => [0, 0, 0, 0])
    (fun _ => by norm_num) (fun _ b hb => by simp at hb; omega)
    (List.replicate 20 0) (by simp) (fun b hb => by simp at hb; omega)
    0 (by norm_num) none (fun m hm => by simp at hm)

end Colorcore
